import Mathlib

set_option maxRecDepth 4000

/-!
# Verification of the 1min-relay-worker chunked translation pipeline

A shallow embedding of the text-chunking utilities (`TextChunker`,
`SubtitleChunker`), the chat handler's chunked-translation orchestrator and
streaming transcoder (`ChatHandler`), and the lifecycle recorder interface
(`TranslationLogger`) of the worker, together with proofs about them.

Modelling conventions:
* JavaScript strings are modelled as `List Char` (`Str`).  `s.substring(a, b)`
  with `a ≤ b` is `(s.drop a).take (b - a)`; `s.substring(a)` is `s.drop a`.
* JavaScript numbers are modelled as `Nat` where the source only ever holds
  non-negative integers.  `Math.max(0, x - y)` coincides with truncated `Nat`
  subtraction.  The one genuinely floating-point expression in the sources,
  `maxChunkSize * 0.7`, is modelled by the exact rational comparison
  `10 * sentenceEnd > 10 * startIndex + 7 * maxChunkSize`.  This is an
  approximation: the IEEE double product can round below the exact value
  (`90 * 0.7` is `62.99999999999999`, so JavaScript accepts a break exactly at
  63 where the exact comparison rejects it).  The two comparisons provably
  agree at window size 10 (`10 * 0.7` is exactly `7.0` in doubles) and at
  every window size of at least 331 — any position `findSentenceBreak` can
  return lies within 99 characters of the nominal boundary and passes both
  comparisons (`findSentenceBreak_ge`) — which covers the only size the
  repository ever chunks with (2000).  Claim C6, which is *about* the exact
  acceptance boundary, is handled accordingly; no other judged claim is
  sensitive to the comparison's direction at the boundary.
* `Array.prototype.sort` (stable since ES2019) with comparator
  `(a, b) => a.index - b.index` is modelled by the stable
  `List.insertionSort (·.index ≤ ·.index)`; a stable sort's output is
  uniquely determined, so any stable sort is a faithful model.
-/

namespace RelayWorker

/-- JavaScript strings, modelled as lists of characters. -/
abbrev Str := List Char

/-- `s.substring(a, b)` for `a ≤ b` (the sources never call it with `a > b`). -/
def substring (s : Str) (a b : Nat) : Str := (s.drop a).take (b - a)

/-- `s.substring(a)`. -/
def substringFrom (s : Str) (a : Nat) : Str := s.drop a

/-- `Math.abs(a - b)` for numbers that are non-negative integers. -/
def distAbs (a b : Nat) : Nat := max (a - b) (b - a)

/-- The `TextChunk` interface of `src/utils/chunking.ts`. -/
structure TextChunk where
  id : String
  content : Str
  index : Nat
  totalChunks : Nat
  originalLength : Nat
deriving DecidableEq

namespace TextChunker

/-- `TextChunker.MAX_CHUNK_SIZE` (characters per chunk). -/
def MAX_CHUNK_SIZE : Nat := 2000

/-- `TextChunker.OVERLAP_SIZE` (overlap between chunks for context). -/
def OVERLAP_SIZE : Nat := 100

/-- The `sentenceEnders` array of `findSentenceBreak`. -/
def sentenceEnders : List Char := ['.', '!', '?', '\n', '。', '！', '？']

/-- `TextChunker.calculateBreakScore`: `Math.max(0, 100 - distance)`; `Nat`
subtraction already floors at zero. -/
def calculateBreakScore (position target : Nat) : Nat :=
  100 - distAbs position target

/-- One iteration of the backward scan in `findSentenceBreak`, updating the
`(bestBreak, bestScore)` pair for index `i` of `searchText`.  An out-of-range
index (impossible for the index lists we fold over) reads `undefined` in
JavaScript, which is not a sentence ender, so the pair is kept. -/
def breakFold (searchText : Str) (start target : Nat) (bs : Nat × Nat) (i : Nat) :
    Nat × Nat :=
  match searchText.get? i with
  | some c =>
    if c ∈ sentenceEnders then
      let position := start + i + 1
      let score := calculateBreakScore position target
      if bs.2 < score then (position, score) else bs
    else bs
  | none => bs

/-- `TextChunker.findSentenceBreak`.  The JavaScript loop runs
`i = searchText.length - 1` down to `Math.max(0, target - start - 200)`,
modelled as a fold over that descending index list. -/
def findSentenceBreak (text : Str) (start target : Nat) : Nat :=
  let searchText := substring text start (target + 200)
  let lo := target - start - 200
  (((List.range searchText.length).filter (fun i => decide (lo ≤ i))).reverse.foldl
    (breakFold searchText start target) (target, 0)).1

/-- The body of one `while` iteration of `chunkText` that computes `endIndex`:
the nominal boundary `min(startIndex + maxChunkSize, text.length)`, replaced by
the sentence break when `sentenceEnd > startIndex + maxChunkSize * 0.7`.  The
JavaScript comparison is floating point; the model compares exactly, scaled by
10, which agrees with the double comparison except possibly when the break
lies exactly at the rounding boundary of `maxChunkSize * 0.7` — see the
modelling note in the file header for where the two provably coincide. -/
def windowEnd (text : Str) (startIndex maxChunkSize : Nat) : Nat :=
  let endIndex := min (startIndex + maxChunkSize) text.length
  if endIndex < text.length then
    let sentenceEnd := findSentenceBreak text startIndex endIndex
    if 10 * startIndex + 7 * maxChunkSize < 10 * sentenceEnd then sentenceEnd
    else endIndex
  else endIndex

/-- The `while (startIndex < text.length)` loop of `chunkText`.  The loop
advances by `startIndex = Math.max(endIndex - OVERLAP_SIZE, endIndex)`, which
always moves strictly forward when `maxChunkSize ≥ 1` (lemma
`windowEnd_gt` below); `fuel` bounds the number of iterations and is
initialised to `text.length`, which suffices (each iteration advances
`startIndex` by at least one).  If an iteration were ever to make no progress
(`endIndex ≤ startIndex`, possible only for `maxChunkSize = 0`) the JavaScript
loop would spin forever; the model returns the chunks emitted so far. -/
def chunkLoop (text : Str) (maxChunkSize : Nat) :
    Nat → Nat → Nat → List TextChunk
  | 0, _, _ => []
  | fuel + 1, startIndex, chunkIndex =>
    if startIndex < text.length then
      let endIndex := windowEnd text startIndex maxChunkSize
      if startIndex < endIndex then
        { id := "chunk-" ++ toString chunkIndex
          content := substring text startIndex endIndex
          index := chunkIndex
          totalChunks := 0  -- updated after all chunks are created
          originalLength := text.length } ::
        chunkLoop text maxChunkSize fuel
          (max (endIndex - OVERLAP_SIZE) endIndex) (chunkIndex + 1)
      else []
    else []

/-- `TextChunker.chunkText`. -/
def chunkText (text : Str) (maxChunkSize : Nat := MAX_CHUNK_SIZE) :
    List TextChunk :=
  if text.length ≤ maxChunkSize then
    [{ id := "chunk-0", content := text, index := 0, totalChunks := 1,
       originalLength := text.length }]
  else
    let chunks := chunkLoop text maxChunkSize text.length 0 0
    chunks.map (fun c => { c with totalChunks := chunks.length })

/-- The `for (let i = maxOverlap; i > 0; i--)` loop of `findOverlap`. -/
def overlapLoop (text1 text2 : Str) : Nat → Nat
  | 0 => 0
  | i + 1 =>
    let suf := substringFrom text1 (text1.length - (i + 1))
    let pre := substring text2 0 (i + 1)
    if suf = pre then i + 1 else overlapLoop text1 text2 i

/-- `TextChunker.findOverlap`. -/
def findOverlap (text1 text2 : Str) : Nat :=
  let maxOverlap := min (min (OVERLAP_SIZE * 2) text1.length) text2.length
  overlapLoop text1 text2 maxOverlap

/-- The `for (let i = 1; ...)` loop of `reconstructText`: `prev` is
`sortedChunks[i - 1]`, and each step appends
`currentChunk.content.substring(overlap)`. -/
def reconstructLoop (prev : TextChunk) : List TextChunk → Str
  | [] => []
  | c :: rest =>
    let overlap := findOverlap prev.content c.content
    substringFrom c.content overlap ++ reconstructLoop c rest

/-- `TextChunker.reconstructText`.  The defensive in-place
`chunks.sort((a, b) => a.index - b.index)` is modelled by the stable
`insertionSort` (see the file header); the inner `match` on the sorted list is
total-function bookkeeping — a sorted nonempty list is nonempty. -/
def reconstructText (chunks : List TextChunk) : Str :=
  match chunks with
  | [] => []
  | [c] => c.content
  | _ :: _ :: _ =>
    let sorted := chunks.insertionSort (fun a b => a.index ≤ b.index)
    match sorted with
    | [] => []
    | c0 :: rest => c0.content ++ reconstructLoop c0 rest

end TextChunker

namespace SubtitleChunker

/-- `subtitles.split(/\n\n|\r\n\r\n/)`: at each position the regex engine
first tries the alternative `\n\n`, then `\r\n\r\n`; a separator match starts a
new piece.  An accumulator holds the current piece in reverse. -/
def splitLoop (cur : Str) : Str → List Str
  | '\n' :: '\n' :: rest => cur.reverse :: splitLoop [] rest
  | '\r' :: '\n' :: '\r' :: '\n' :: rest => cur.reverse :: splitLoop [] rest
  | c :: rest => splitLoop (c :: cur) rest
  | [] => [cur.reverse]

/-- The whitespace class of `String.prototype.trim`: the ECMAScript
WhiteSpace productions (TAB, VT, FF, SP, NBSP, ZWNBSP and the Unicode
space-separator category) together with the LineTerminator code points
(LF, CR, LS, PS). -/
def isWhitespaceChar (c : Char) : Bool :=
  c == ' ' || c == '\t' || c == '\n' || c == '\r' || c == '\x0b' ||
    c == '\x0c' || c == '\u00A0' || c == '\uFEFF' || c == '\u1680' ||
    ('\u2000' ≤ c && c ≤ '\u200A') || c == '\u2028' || c == '\u2029' ||
    c == '\u202F' || c == '\u205F' || c == '\u3000'

/-- `s.trim()`. -/
def trim (s : Str) : Str :=
  ((s.dropWhile isWhitespaceChar).reverse.dropWhile isWhitespaceChar).reverse

/-- The `for (const line of lines)` loop of `chunkSubtitles` followed by the
final-chunk push.  `origLen` is `subtitles.length`. -/
def subLoop (origLen maxChunkSize : Nat) :
    List Str → Str → Nat → List TextChunk
  | [], currentChunk, chunkIndex =>
    -- `if (currentChunk.trim())` : push the final chunk when nonempty
    if trim currentChunk ≠ [] then
      [{ id := "subtitle-chunk-" ++ toString chunkIndex,
         content := trim currentChunk, index := chunkIndex, totalChunks := 0,
         originalLength := origLen }]
    else []
  | line :: rest, currentChunk, chunkIndex =>
    if maxChunkSize < currentChunk.length + line.length ∧
        0 < currentChunk.length then
      { id := "subtitle-chunk-" ++ toString chunkIndex,
        content := trim currentChunk, index := chunkIndex, totalChunks := 0,
        originalLength := origLen } ::
      subLoop origLen maxChunkSize rest line (chunkIndex + 1)
    else
      subLoop origLen maxChunkSize rest
        (currentChunk ++ (if currentChunk.isEmpty then [] else ['\n', '\n']) ++
          line)
        chunkIndex

/-- `SubtitleChunker.chunkSubtitles`. -/
def chunkSubtitles (subtitles : Str) (maxChunkSize : Nat := 1500) :
    List TextChunk :=
  let lines := splitLoop [] subtitles
  let chunks := subLoop subtitles.length maxChunkSize lines [] 0
  chunks.map (fun c => { c with totalChunks := chunks.length })

end SubtitleChunker

/-! ## The chat handler (`src/handlers/chat.ts`)

The handler drives backend I/O; its pure decision logic is embedded by
passing the nondeterministic ingredients explicitly:
* `requestId` stands for the `generateUUID()` result;
* a backend oracle `Nat → BackendCall` gives the outcome of the `i`-th
  sequential single-segment call of the chunked path;
* a `BackendCall` gives the outcome of the one-shot non-streaming call;
* a list of already-decoded source pieces gives the reads of the streaming
  path.
`id`/`created` fields of response envelopes (fresh UUIDs and clock reads) and
the token-usage estimates are not modelled; no claim mentions them. -/

/-- A message's `content` is either a string or something else (e.g. the
array form used for vision input). -/
inductive MsgContent
  | str (s : Str)
  | other
deriving DecidableEq

/-- One chat message. -/
structure ChatMessage where
  role : String
  content : MsgContent
deriving DecidableEq

/-- The request body fields consulted by the handler.  `messages = none`
models a missing or non-array `messages` field; `model = none` a missing
model. -/
structure ChatCompletionRequest where
  messages : Option (List ChatMessage)
  model : Option String
  stream : Bool
deriving DecidableEq

/-- Lifecycle events recorded through `TranslationLogger`
(`startTranslation` / `completeTranslation` / `failTranslation`). -/
inductive LifecycleEvent
  | started (requestId : String) (textLength : Nat) (model : String)
  | completed (requestId : String) (chunkCount : Option Nat)
  | failed (requestId : String) (error : String)
deriving DecidableEq

/-- Outcome of one inner backend call as seen by `handleNonStreamingChat`:
either `sendChatRequest` resolves and the JSON body parses (`success`, with
the assistant text the handler extracts from it), or an error is thrown
(`failure` with the error message). -/
inductive BackendCall
  | success (content : Str)
  | failure (message : String)
deriving DecidableEq

/-- One SSE chat-completion-chunk frame as built by `handleStreamingChat`
(its nondeterministic `id` and `created` fields are not modelled). -/
structure ChunkFrame where
  object : String
  deltaContent : Option Str
  finishReason : Option String
deriving DecidableEq

/-- One observable action on the streaming sink. -/
inductive SSEWrite
  | frame (f : ChunkFrame)
  | doneSentinel  -- the literal `data: [DONE]\n\n`
  | closeSink
deriving DecidableEq

/-- A handler `Response`: a success JSON body, an error JSON body
(`createErrorResponse message status`), or an event stream. -/
inductive HandlerResponse
  | jsonOk (object : String) (content : Str) (finishReason : String)
  | jsonError (message : String) (status : Nat)
  | eventStream (writes : List SSEWrite)
deriving DecidableEq

/-- `response.ok`: HTTP status in the 200 range. -/
def HandlerResponse.isOk : HandlerResponse → Bool
  | .jsonError _ _ => false
  | _ => true

/-- `response.status`. -/
def HandlerResponse.statusCode : HandlerResponse → Nat
  | .jsonError _ s => s
  | _ => 200

/-- Whether a response is the SSE form. -/
def HandlerResponse.isEventStream : HandlerResponse → Bool
  | .eventStream _ => true
  | _ => false

namespace ChatHandler

/-- The timestamp pattern `/\d{2}:\d{2}:\d{2}[,.]\d{3}/` of `detectSubtitles`,
tested at one position. -/
def timestampAt : Str → Bool
  | a :: b :: c1 :: d :: e :: c2 :: f :: g :: c3 :: h :: i :: j :: _ =>
    a.isDigit && b.isDigit && c1 == ':' && d.isDigit && e.isDigit &&
      c2 == ':' && f.isDigit && g.isDigit && (c3 == ',' || c3 == '.') &&
      h.isDigit && i.isDigit && j.isDigit
  | _ => false

/-- Whether `p` matches at some position of the text (an unanchored regex
test). -/
def anyTail (p : Str → Bool) : Str → Bool
  | [] => p []
  | c :: rest => p (c :: rest) || anyTail p rest

/-- The SRT arrow pattern (dash, dash, greater-than) tested at one
position. -/
def arrowAt : Str → Bool
  | '-' :: '-' :: '>' :: _ => true
  | _ => false

/-- The HTML-like tag pattern `/<[^>]+>/` tested at one position: a `<`, at
least one non-`>` character, then a `>` (the greedy `[^>]+` necessarily stops
at the first `>`). -/
def tagAt : Str → Bool
  | '<' :: c :: rest => c != '>' && (c :: rest).contains '>'
  | _ => false

/-- `\w` of the bracket pattern: `[A-Za-z0-9_]`. -/
def isWordChar (c : Char) : Bool := c.isAlphanum || c == '_'

/-- The bracket-annotation pattern `/\[\w+\]/` tested at one position: a `[`,
at least one word character, then a `]` right after the maximal word-character
run (shorter runs end at a word character, which is not `]`). -/
def bracketAt : Str → Bool
  | '[' :: c :: rest =>
    isWordChar c && ((c :: rest).dropWhile isWordChar).head? == some ']'
  | _ => false

/-- Line splitting for the multiline anchor of `/^\d+$/m`: in JavaScript `^`
and `$` match around the LineTerminator code points `\n`, `\r`, U+2028 and
U+2029. -/
def splitLinesLoop (cur : Str) : Str → List Str
  | [] => [cur.reverse]
  | c :: rest =>
    if c == '\n' || c == '\r' || c == '\u2028' || c == '\u2029' then
      cur.reverse :: splitLinesLoop [] rest
    else splitLinesLoop (c :: cur) rest

/-- The sequence-number pattern `/^\d+$/m`: some line consists of one or more
digits only. -/
def hasSeqNumberLine (s : Str) : Bool :=
  (splitLinesLoop [] s).any (fun l => !l.isEmpty && l.all Char.isDigit)

/-- `ChatHandler.detectSubtitles`: `subtitlePatterns.some(p => p.test(text))`. -/
def detectSubtitles (text : Str) : Bool :=
  anyTail timestampAt text || hasSeqNumberLine text || anyTail arrowAt text ||
    anyTail tagAt text || anyTail bracketAt text

/-- The text-length computation of `handleChatCompletionsWithBody`:
`messages.map(msg => typeof msg.content === 'string' ? msg.content.length : 0)
.reduce((sum, len) => sum + len, 0)`. -/
def totalTextLength (messages : List ChatMessage) : Nat :=
  (messages.map (fun msg =>
    match msg.content with
    | .str s => s.length
    | .other => 0)).sum

/-- `Array.prototype.join(sep)`. -/
def joinSep (sep : Str) : List Str → Str
  | [] => []
  | [s] => s
  | s :: rest => s ++ sep ++ joinSep sep rest

/-- The text extraction of `handleChunkedTranslation`:
`messages.map(msg => typeof msg.content === 'string' ? msg.content : '')
.join(' ')`. -/
def extractTextContent (messages : List ChatMessage) : Str :=
  joinSep [' ']
    (messages.map (fun msg =>
      match msg.content with
      | .str s => s
      | .other => []))

/-- `ChatHandler.handleNonStreamingChat` on one backend outcome: the response
returned, paired with the lifecycle events it records (none when no
`requestId` was passed — the chunked path calls it without one). -/
def handleNonStreamingChat (call : BackendCall) (requestId : Option String) :
    HandlerResponse × List LifecycleEvent :=
  match call with
  | .success content =>
    (.jsonOk "chat.completion" content "stop",
     match requestId with
     | some rid => [.completed rid none]
     | none => [])
  | .failure msg =>
    (.jsonError "Failed to process chat completion" 500,
     match requestId with
     | some rid => [.failed rid msg]
     | none => [])

/-- The translated text `handleChunkedTranslation` extracts from a successful
chunk response: `chunkResult.choices?.[0]?.message?.content || ''`. -/
def extractChunkContent : HandlerResponse → Str
  | .jsonOk _ content _ => content
  | _ => []

/-- The `for (let i = 0; i < chunks.length; i++)` loop of
`handleChunkedTranslation`, driving one inner call per chunk strictly in
order.  Returns the list of call indices actually issued and either the
translated chunk texts or the message of the error thrown on the first
non-success response (`throw new Error(...)` aborts the loop).  The
inter-chunk delay only suspends; it does not change the result. -/
def processChunksLoop (backend : Nat → BackendCall) :
    List TextChunk → Nat → List Nat × Except String (List Str)
  | [], _ => ([], .ok [])
  | _ :: rest, i =>
    let response := (handleNonStreamingChat (backend i) none).1
    if response.isOk = false then
      ([i], .error ("Chunk " ++ toString (i + 1) ++ " failed with status " ++
        toString response.statusCode))
    else
      let translated := extractChunkContent response
      match processChunksLoop backend rest (i + 1) with
      | (calls, .ok results) => (i :: calls, .ok (translated :: results))
      | (calls, .error e) => (i :: calls, .error e)

/-- The segmentation run of `handleChunkedTranslation`: extract the text,
classify it, and chunk with the strategy-specific size (1500 for subtitles,
2000 for plain text). -/
def chunkPlan (messages : List ChatMessage) : List TextChunk :=
  let textContent := extractTextContent messages
  if detectSubtitles textContent then
    SubtitleChunker.chunkSubtitles textContent 1500
  else TextChunker.chunkText textContent 2000

/-- `ChatHandler.handleChunkedTranslation`.  Returns the response, the
lifecycle events recorded, and the indices of the single-segment backend
calls issued.  The response-envelope `usage` estimate is not modelled. -/
def handleChunkedTranslation (messages : List ChatMessage)
    (requestId : String) (backend : Nat → BackendCall) :
    HandlerResponse × List LifecycleEvent × List Nat :=
  let textContent := extractTextContent messages
  let isSubtitles := detectSubtitles textContent
  let chunks := chunkPlan messages
  match processChunksLoop backend chunks 0 with
  | (calls, .error e) =>
    (.jsonError "Failed to process chunked translation" 500,
     [.failed requestId e], calls)
  | (calls, .ok translatedChunks) =>
    let finalTranslation :=
      joinSep (if isSubtitles then ['\n', '\n'] else [' ']) translatedChunks
    (.jsonOk "chat.completion" finalTranslation "stop",
     [.completed requestId (some chunks.length)], calls)

/-- The detached pump loop of `handleStreamingChat`, as the sequence of sink
actions it performs for a source that delivers the given already-decoded
pieces and then ends: a delta frame per read, then the terminal frame, the
`[DONE]` sentinel, and the sink close. -/
def streamPump : List Str → List SSEWrite
  | [] =>
    [.frame { object := "chat.completion.chunk", deltaContent := none,
              finishReason := some "stop" },
     .doneSentinel, .closeSink]
  | piece :: rest =>
    .frame { object := "chat.completion.chunk", deltaContent := some piece,
             finishReason := none } :: streamPump rest

/-- `ChatHandler.handleStreamingChat` for a source stream delivering the
given pieces (the event-stream response whose body the detached pump
fills). -/
def handleStreamingChat (pieces : List Str) : HandlerResponse :=
  .eventStream (streamPump pieces)

/-- `ChatHandler.handleChatCompletionsWithBody`.  `models` and `defaultModel`
stand for the `ALL_ONE_MIN_AVAILABLE_MODELS` / `DEFAULT_MODEL` constants
(their module is not among the sources); `requestId` for the generated UUID.
Returns the response and the lifecycle events recorded synchronously (the
streaming path's completion event is emitted later by the detached pump and
is not part of the synchronous return). -/
def handleChatCompletionsWithBody (models : List String)
    (defaultModel : String) (req : ChatCompletionRequest) (requestId : String)
    (backend : Nat → BackendCall) (single : BackendCall)
    (pieces : List Str) : HandlerResponse × List LifecycleEvent :=
  match req.messages with
  | none => (.jsonError "Messages field is required and must be an array" 400, [])
  | some messages =>
    let model := req.model.getD defaultModel
    if model ∈ models then
      let totalLen := totalTextLength messages
      let startEvents := [LifecycleEvent.started requestId totalLen model]
      if 2000 < totalLen then
        let r := handleChunkedTranslation messages requestId backend
        (r.1, startEvents ++ r.2.1)
      else if req.stream then
        (handleStreamingChat pieces, startEvents)
      else
        let r := handleNonStreamingChat single (some requestId)
        (r.1, startEvents ++ r.2)
    else
      (.jsonError ("Model '" ++ model ++ "' is not supported") 400, [])

end ChatHandler

/-! ## Spec-side definitions for refinement comparisons -/

namespace TextChunker

/-- The fold of the reassembler exactly as claim C7 (and spec §4.2) words it:
for each next segment the overlap is computed between the
**already-assembled result** and the next segment's content. -/
def claimedLoop (result : Str) : List TextChunk → Str
  | [] => result
  | c :: rest =>
    claimedLoop (result ++ substringFrom c.content (findOverlap result c.content))
      rest

/-- The reassembler as described by claim C7: identical to `reconstructText`
except that each overlap search runs against the already-assembled result
rather than the previous segment's content. -/
def reconstructTextClaimed (chunks : List TextChunk) : Str :=
  match chunks with
  | [] => []
  | [c] => c.content
  | _ :: _ :: _ =>
    let sorted := chunks.insertionSort (fun a b => a.index ≤ b.index)
    match sorted with
    | [] => []
    | c0 :: rest => claimedLoop c0.content rest

end TextChunker

/-! ## Concrete instances used in counterexamples and witnesses -/

/-- `"abcdef.ghijklmnop"`: 17 characters with a single sentence ender at
index 6. -/
def exBreakText : Str :=
  ['a', 'b', 'c', 'd', 'e', 'f', '.', 'g', 'h', 'i', 'j', 'k', 'l', 'm', 'n',
   'o', 'p']

/-- `"ab.defgh"`: 8 characters, chunked with window size 3 into three
segments. -/
def exSmallText : Str := ['a', 'b', '.', 'd', 'e', 'f', 'g', 'h']

/-- 2001 copies of `'a'`: one character past the default maximum chunk size,
with no sentence enders and a coincidental suffix/prefix match between the two
produced chunks. -/
def aRun : Str := List.replicate 2001 'a'

/-- A single-message request body whose text is 2001 characters long —
just over the chunking threshold. -/
def exLongMessages : List ChatMessage :=
  [{ role := "user", content := .str (List.replicate 2001 'a') }]

/-- The oversized request with the streaming flag set. -/
def exLongRequest : ChatCompletionRequest :=
  { messages := some exLongMessages, model := none, stream := true }

/-- A subtitle input whose first blank-line-separated block is whitespace
only (three spaces) and whose second block is 1498 characters, so appending
the second block overflows the 1500 limit and the whitespace-only buffer is
flushed as a segment. -/
def exWhitespaceBlockSubs : Str :=
  [' ', ' ', ' ', '\n', '\n'] ++ List.replicate 1498 'L'

/-- A single short message (`"hello"`). -/
def exShortMessages : List ChatMessage :=
  [{ role := "user", content := .str ['h', 'e', 'l', 'l', 'o'] }]

/-- A segment run (indices 0, 1, 2) on which the previous-segment overlap rule
and the assembled-result overlap rule disagree: contents `"XY"`, `"ab"`,
`"Yab"`. -/
def exChunks : List TextChunk :=
  [{ id := "chunk-0", content := ['X', 'Y'], index := 0, totalChunks := 3,
     originalLength := 7 },
   { id := "chunk-1", content := ['a', 'b'], index := 1, totalChunks := 3,
     originalLength := 7 },
   { id := "chunk-2", content := ['Y', 'a', 'b'], index := 2, totalChunks := 3,
     originalLength := 7 }]

/-! ## Basic lemmas -/

theorem substring_append_drop (s : Str) (a b : Nat) (hab : a ≤ b) :
    substring s a b ++ s.drop b = s.drop a := by
  unfold substring
  have h : s.drop b = (s.drop a).drop (b - a) := by
    rw [List.drop_drop]; congr 1; omega
  rw [h, List.take_append_drop]

theorem length_substring (s : Str) (a b : Nat) :
    (substring s a b).length = min (b - a) (s.length - a) := by
  unfold substring
  simp

theorem foldl_eq_init {α β : Type} {f : β → α → β} {l : List α} {init : β}
    (h : ∀ b a, a ∈ l → f b a = b) : l.foldl f init = init := by
  induction l generalizing init with
  | nil => rfl
  | cons x xs ih =>
    rw [List.foldl_cons, h init x (by simp)]
    exact ih fun b a ha => h b a (by simp [ha])

namespace TextChunker

theorem breakFold_fst_le (searchText : Str) (start target : Nat)
    (l : List Nat) (init : Nat × Nat) :
    (l.foldl (breakFold searchText start target) init).1 ≤
      max init.1 (start + searchText.length) := by
  induction l generalizing init with
  | nil => simp
  | cons i rest ih =>
    rw [List.foldl_cons]
    refine le_trans (ih _) (max_le (le_trans ?_ le_rfl) (le_max_right _ _))
    have hstep : (breakFold searchText start target init i).1 ≤
        max init.1 (start + searchText.length) := by
      unfold breakFold
      cases hg : searchText.get? i with
      | none => exact le_max_left _ _
      | some c =>
        by_cases hc : c ∈ sentenceEnders
        · simp only [hc, if_true]
          split
          · have hi : i < searchText.length := by
              by_contra hcon
              rw [List.get?_eq_none.mpr (by omega)] at hg
              cases hg
            exact le_max_of_le_right (by omega)
          · exact le_max_left _ _
        · simp only [hc, if_false]
          exact le_max_left _ _
    exact hstep

theorem findSentenceBreak_le (text : Str) (start target : Nat)
    (h : target ≤ text.length) :
    findSentenceBreak text start target ≤ text.length := by
  unfold findSentenceBreak
  by_cases hs : text.length ≤ start
  · have hempty : substring text start (target + 200) = [] := by
      unfold substring
      rw [List.drop_eq_nil_of_le hs, List.take_nil]
    rw [hempty]
    simpa using h
  · refine le_trans (breakFold_fst_le _ _ _ _ _) (max_le h ?_)
    rw [length_substring]
    omega

theorem windowEnd_le (text : Str) (s m : Nat) :
    windowEnd text s m ≤ text.length := by
  simp only [windowEnd]
  split
  · split
    · exact findSentenceBreak_le text s _ (Nat.min_le_right _ _)
    · exact Nat.min_le_right _ _
  · exact Nat.min_le_right _ _

theorem windowEnd_gt (text : Str) (s m : Nat) (hm : 1 ≤ m)
    (hs : s < text.length) : s < windowEnd text s m := by
  have hmin : s + 1 ≤ min (s + m) text.length :=
    Nat.le_min.mpr ⟨by omega, by omega⟩
  simp only [windowEnd]
  split
  · split
    next hacc => omega
    next => omega
  · omega

theorem chunkLoop_join (text : Str) (m : Nat) (hm : 1 ≤ m) :
    ∀ (fuel s i : Nat), text.length ≤ fuel + s →
      ((chunkLoop text m fuel s i).map TextChunk.content).flatten =
        text.drop s := by
  intro fuel
  induction fuel with
  | zero =>
    intro s i h
    rw [chunkLoop, List.map_nil, List.flatten_nil,
      List.drop_eq_nil_of_le (by omega)]
  | succ fuel ih =>
    intro s i h
    by_cases hs : s < text.length
    · have hgt := windowEnd_gt text s m hm hs
      have hmax : max (windowEnd text s m - OVERLAP_SIZE) (windowEnd text s m)
          = windowEnd text s m := Nat.max_eq_right (Nat.sub_le _ _)
      rw [chunkLoop]
      simp only [if_pos hs, if_pos hgt, List.map_cons, List.flatten_cons, hmax]
      rw [ih (windowEnd text s m) (i + 1) (by omega)]
      exact substring_append_drop text s _ (le_of_lt hgt)
    · rw [chunkLoop]
      simp only [if_neg hs, List.map_nil, List.flatten_nil]
      rw [List.drop_eq_nil_of_le (by omega)]

theorem chunkLoop_map_index (text : Str) (m : Nat) :
    ∀ (fuel s i : Nat),
      (chunkLoop text m fuel s i).map TextChunk.index =
        List.range' i (chunkLoop text m fuel s i).length := by
  intro fuel
  induction fuel with
  | zero => intro s i; rw [chunkLoop]; rfl
  | succ fuel ih =>
    intro s i
    simp only [chunkLoop]
    split
    · split
      · rw [List.map_cons, List.length_cons, List.range'_succ, ih]
      · rfl
    · rfl

theorem chunkLoop_originalLength (text : Str) (m : Nat) :
    ∀ (fuel s i : Nat) (c : TextChunk), c ∈ chunkLoop text m fuel s i →
      c.originalLength = text.length := by
  intro fuel
  induction fuel with
  | zero => intro s i c hc; rw [chunkLoop] at hc; cases hc
  | succ fuel ih =>
    intro s i c hc
    simp only [chunkLoop] at hc
    split at hc
    · split at hc
      · rcases List.mem_cons.mp hc with h | h
        · rw [h]
        · exact ih _ _ c h
      · cases hc
    · cases hc

theorem chunkLoop_content_ne (text : Str) (m : Nat) :
    ∀ (fuel s i : Nat) (c : TextChunk), c ∈ chunkLoop text m fuel s i →
      c.content ≠ [] := by
  intro fuel
  induction fuel with
  | zero => intro s i c hc; rw [chunkLoop] at hc; cases hc
  | succ fuel ih =>
    intro s i c hc
    simp only [chunkLoop] at hc
    split at hc
    next hs =>
      split at hc
      next hgt =>
        rcases List.mem_cons.mp hc with h | h
        · rw [h]
          intro hnil
          have := congrArg List.length hnil
          rw [length_substring] at this
          have hle := windowEnd_le text s m
          simp at this
          omega
        · exact ih _ _ c h
      next => cases hc
    next => cases hc

theorem windowEnd_eq_of_lt (text : Str) (start m : Nat)
    (h : min (start + m) text.length < text.length) :
    windowEnd text start m =
      if 10 * start + 7 * m <
          10 * findSentenceBreak text start (min (start + m) text.length) then
        findSentenceBreak text start (min (start + m) text.length)
      else min (start + m) text.length := by
  simp only [windowEnd]
  rw [if_pos h]

theorem windowEnd_eq_of_ge (text : Str) (start m : Nat)
    (h : ¬ min (start + m) text.length < text.length) :
    windowEnd text start m = min (start + m) text.length := by
  simp only [windowEnd]
  rw [if_neg h]

theorem chunkLoop_succ (text : Str) (m fuel s i : Nat) (hs : s < text.length)
    (hgt : s < windowEnd text s m) :
    chunkLoop text m (fuel + 1) s i =
      { id := "chunk-" ++ toString i,
        content := substring text s (windowEnd text s m), index := i,
        totalChunks := 0, originalLength := text.length } ::
      chunkLoop text m fuel
        (max (windowEnd text s m - OVERLAP_SIZE) (windowEnd text s m))
        (i + 1) := by
  simp only [chunkLoop, if_pos hs, if_pos hgt]

theorem chunkLoop_stop (text : Str) (m fuel s i : Nat)
    (hs : ¬ s < text.length) : chunkLoop text m fuel s i = [] := by
  cases fuel <;> simp [chunkLoop, hs]

theorem findSentenceBreak_of_no_enders (text : Str) (start target : Nat)
    (h : ∀ c ∈ text, c ∉ sentenceEnders) :
    findSentenceBreak text start target = target := by
  simp only [findSentenceBreak]
  rw [foldl_eq_init]
  intro bs i _
  unfold breakFold
  cases hg : (substring text start (target + 200)).get? i with
  | none => rfl
  | some c =>
    have hc : c ∈ substring text start (target + 200) := List.get?_mem hg
    have hct : c ∈ text :=
      List.mem_of_mem_drop (List.mem_of_mem_take hc)
    simp [h c hct]

theorem overlapLoop_le (t1 t2 : Str) : ∀ i, overlapLoop t1 t2 i ≤ i := by
  intro i
  induction i with
  | zero => simp [overlapLoop]
  | succ i ih =>
    simp only [overlapLoop]
    split
    · exact le_rfl
    · omega

theorem overlapLoop_match (t1 t2 : Str) :
    ∀ i, overlapLoop t1 t2 i = 0 ∨
      substringFrom t1 (t1.length - overlapLoop t1 t2 i) =
        substring t2 0 (overlapLoop t1 t2 i) := by
  intro i
  induction i with
  | zero => exact Or.inl rfl
  | succ i ih =>
    simp only [overlapLoop]
    split
    next heq => exact Or.inr heq
    next => exact ih

theorem overlapLoop_max (t1 t2 : Str) :
    ∀ i j, overlapLoop t1 t2 i < j → j ≤ i →
      substringFrom t1 (t1.length - j) ≠ substring t2 0 j := by
  intro i
  induction i with
  | zero => intro j h1 h2; omega
  | succ i ih =>
    intro j h1 h2
    by_cases hj : j = i + 1
    · subst hj
      simp only [overlapLoop] at h1
      split at h1
      · omega
      next hne => exact hne
    · refine ih j ?_ (by omega)
      simp only [overlapLoop] at h1
      split at h1
      · omega
      · exact h1

theorem breakFold_fst_ge (searchText : Str) (start target : Nat)
    (l : List Nat) (init : Nat × Nat) (hinit : target - 99 ≤ init.1) :
    target - 99 ≤ (l.foldl (breakFold searchText start target) init).1 := by
  induction l generalizing init with
  | nil => exact hinit
  | cons i rest ih =>
    rw [List.foldl_cons]
    refine ih _ ?_
    unfold breakFold
    cases hg : searchText.get? i with
    | none => exact hinit
    | some c =>
      by_cases hc : c ∈ sentenceEnders
      · simp only [hc, if_true]
        split
        next hscore =>
          unfold calculateBreakScore distAbs at hscore
          have hb := Nat.le_max_right (start + i + 1 - target)
            (target - (start + i + 1))
          show target - 99 ≤ start + i + 1
          omega
        next => exact hinit
      · simp only [hc, if_false]
        exact hinit

theorem findSentenceBreak_ge (text : Str) (start target : Nat) :
    target - 99 ≤ findSentenceBreak text start target := by
  simp only [findSentenceBreak]
  exact breakFold_fst_ge _ start target _ (target, 0) (by omega)

theorem findOverlap_le_right (t1 t2 : Str) :
    findOverlap t1 t2 ≤ t2.length := by
  simp only [findOverlap]
  exact le_trans (overlapLoop_le t1 t2 _) (Nat.min_le_right _ _)

theorem findOverlap_le_twice_overlap (t1 t2 : Str) :
    findOverlap t1 t2 ≤ OVERLAP_SIZE * 2 := by
  simp only [findOverlap]
  exact le_trans (overlapLoop_le t1 t2 _)
    (le_trans (Nat.min_le_left _ _) (Nat.min_le_left _ _))

theorem reconstructLoop_length_le (prev : TextChunk) (l : List TextChunk) :
    (reconstructLoop prev l).length ≤
      (l.map (fun c => c.content.length)).sum := by
  induction l generalizing prev with
  | nil => simp [reconstructLoop]
  | cons c rest ih =>
    simp only [reconstructLoop, substringFrom, List.length_append,
      List.length_drop, List.map_cons, List.sum_cons]
    have := ih c
    omega

theorem reconstructLoop_length_ge (prev : TextChunk) (l : List TextChunk) :
    (l.map (fun c => c.content.length)).sum ≤
      (reconstructLoop prev l).length + OVERLAP_SIZE * 2 * l.length := by
  induction l generalizing prev with
  | nil => simp [reconstructLoop]
  | cons c rest ih =>
    simp only [reconstructLoop, substringFrom, List.length_append,
      List.length_drop, List.map_cons, List.sum_cons, List.length_cons]
    have h1 := findOverlap_le_twice_overlap prev.content c.content
    have h2 := findOverlap_le_right prev.content c.content
    have h3 := ih c
    rw [show OVERLAP_SIZE * 2 = 200 from rfl] at h1 h3 ⊢
    omega

theorem reconstructLoop_length_lt (prev : TextChunk) (l : List TextChunk)
    (h : ¬ List.Chain' (fun a b => findOverlap a.content b.content = 0)
      (prev :: l)) :
    (reconstructLoop prev l).length <
      (l.map (fun c => c.content.length)).sum := by
  induction l generalizing prev with
  | nil => exact absurd (List.chain'_singleton prev) h
  | cons c rest ih =>
    rw [List.chain'_cons] at h
    simp only [reconstructLoop, substringFrom, List.length_append,
      List.length_drop, List.map_cons, List.sum_cons]
    by_cases hov : findOverlap prev.content c.content = 0
    · have hrest := ih c (fun hcc => h ⟨hov, hcc⟩)
      omega
    · have h2 := findOverlap_le_right prev.content c.content
      have h3 := reconstructLoop_length_le c rest
      omega

theorem reconstructText_sorted (c0 : TextChunk) (rest : List TextChunk)
    (hsorted : List.Sorted (fun a b : TextChunk => a.index ≤ b.index)
      (c0 :: rest)) :
    reconstructText (c0 :: rest) = c0.content ++ reconstructLoop c0 rest := by
  match rest with
  | [] => simp [reconstructText, reconstructLoop]
  | c1 :: rest2 =>
    simp only [reconstructText]
    rw [List.Sorted.insertionSort_eq hsorted]

theorem reconstructLoop_zero_overlap (prev : TextChunk)
    (l : List TextChunk)
    (h : List.Chain' (fun a b => findOverlap a.content b.content = 0)
      (prev :: l)) :
    reconstructLoop prev l = (l.map TextChunk.content).flatten := by
  induction l generalizing prev with
  | nil => rfl
  | cons c rest ih =>
    obtain ⟨h0, htail⟩ := List.chain'_cons.mp h
    simp only [reconstructLoop, h0, substringFrom, List.drop_zero,
      List.map_cons, List.flatten_cons]
    rw [ih c htail]

theorem sorted_of_map_index_range' (l : List TextChunk) :
    ∀ i, l.map TextChunk.index = List.range' i l.length →
      List.Sorted (fun a b : TextChunk => a.index ≤ b.index) l := by
  induction l with
  | nil => intro i _; simp
  | cons a rest ih =>
    intro i h
    rw [List.map_cons, List.length_cons, List.range'_succ] at h
    have h1 : a.index = i := (List.cons_eq_cons.mp h).1
    have h2 : rest.map TextChunk.index = List.range' (i + 1) rest.length :=
      (List.cons_eq_cons.mp h).2
    refine List.sorted_cons.mpr ⟨?_, ih (i + 1) h2⟩
    intro b hb
    have hmem : b.index ∈ List.range' (i + 1) rest.length := by
      rw [← h2]
      exact List.mem_map_of_mem _ hb
    have := List.mem_range'_1.mp hmem
    omega

theorem chunkText_flatten (text : Str) (m : Nat) (hm : 1 ≤ m) :
    ((chunkText text m).map TextChunk.content).flatten = text := by
  unfold chunkText
  split
  · simp
  · simp only [List.map_map]
    have hcomp : (TextChunk.content ∘
        fun c => { c with totalChunks := (chunkLoop text m text.length 0 0).length }) =
        TextChunk.content := funext fun c => rfl
    rw [hcomp]
    simpa using chunkLoop_join text m hm text.length 0 0 (by omega)

theorem chunkText_map_index (text : Str) (m : Nat) :
    (chunkText text m).map TextChunk.index =
      List.range (chunkText text m).length := by
  unfold chunkText
  split
  · rfl
  · simp only [List.map_map, List.length_map]
    have hcomp : (TextChunk.index ∘
        fun c => { c with totalChunks := (chunkLoop text m text.length 0 0).length }) =
        TextChunk.index := funext fun c => rfl
    rw [hcomp, List.range_eq_range']
    exact chunkLoop_map_index text m text.length 0 0

theorem chunkText_sorted (text : Str) (m : Nat) :
    List.Sorted (fun a b : TextChunk => a.index ≤ b.index)
      (chunkText text m) := by
  refine sorted_of_map_index_range' _ 0 ?_
  rw [← List.range_eq_range']
  exact chunkText_map_index text m

theorem chunkText_totalChunks (text : Str) (m : Nat) :
    ∀ c ∈ chunkText text m, c.totalChunks = (chunkText text m).length := by
  intro c hc
  by_cases hif : text.length ≤ m
  · simp only [chunkText, if_pos hif] at hc ⊢
    rw [List.mem_singleton.mp hc]
    rfl
  · simp only [chunkText, if_neg hif] at hc ⊢
    rcases List.mem_map.mp hc with ⟨c0, _, hmap⟩
    rw [← hmap, List.length_map]

theorem chunkText_originalLength (text : Str) (m : Nat) :
    ∀ c ∈ chunkText text m, c.originalLength = text.length := by
  intro c hc
  by_cases hif : text.length ≤ m
  · simp only [chunkText, if_pos hif] at hc
    rw [List.mem_singleton.mp hc]
  · simp only [chunkText, if_neg hif] at hc
    rcases List.mem_map.mp hc with ⟨c0, hc0, hmap⟩
    rw [← hmap]
    exact chunkLoop_originalLength text m _ _ _ c0 hc0

theorem chunkText_content_ne (text : Str) (m : Nat) (htext : text ≠ []) :
    ∀ c ∈ chunkText text m, c.content ≠ [] := by
  intro c hc
  by_cases hif : text.length ≤ m
  · simp only [chunkText, if_pos hif] at hc
    rw [List.mem_singleton.mp hc]
    exact htext
  · simp only [chunkText, if_neg hif] at hc
    rcases List.mem_map.mp hc with ⟨c0, hc0, hmap⟩
    rw [← hmap]
    exact chunkLoop_content_ne text m _ _ _ c0 hc0

theorem aRun_no_enders : ∀ c ∈ aRun, c ∉ sentenceEnders := by
  intro c hc
  rw [List.eq_of_mem_replicate hc]
  decide

theorem aRun_length : aRun.length = 2001 := by
  rw [aRun, List.length_replicate]

theorem windowEnd_aRun_0 : windowEnd aRun 0 2000 = 2000 := by
  have hmin : min (0 + 2000) aRun.length = 2000 := by
    rw [aRun_length]; decide
  have hlt : min (0 + 2000) aRun.length < aRun.length := by
    rw [hmin, aRun_length]; decide
  rw [windowEnd_eq_of_lt aRun 0 2000 hlt, hmin,
    findSentenceBreak_of_no_enders aRun 0 2000 aRun_no_enders]
  decide

theorem windowEnd_aRun_2000 : windowEnd aRun 2000 2000 = 2001 := by
  have hge : ¬ min (2000 + 2000) aRun.length < aRun.length := by
    rw [aRun_length]; decide
  rw [windowEnd_eq_of_ge aRun 2000 2000 hge, aRun_length]
  decide

theorem chunkLoop_aRun_tail (fuel : Nat) (hf : 1 ≤ fuel) :
    chunkLoop aRun 2000 fuel 2000 1 =
      [{ id := "chunk-" ++ toString 1, content := ['a'], index := 1,
         totalChunks := 0, originalLength := aRun.length }] := by
  have hsub : substring aRun 2000 2001 = ['a'] := by
    unfold substring aRun
    rw [List.drop_replicate, List.take_replicate]
    norm_num
  match fuel, hf with
  | fuel + 1, _ =>
    rw [chunkLoop_succ aRun 2000 fuel 2000 1
        (by rw [aRun_length]; decide)
        (by rw [windowEnd_aRun_2000]; decide),
      windowEnd_aRun_2000,
      show max (2001 - OVERLAP_SIZE) 2001 = 2001 from by decide,
      chunkLoop_stop aRun 2000 fuel 2001 2 (by rw [aRun_length]; omega),
      hsub]

theorem chunkText_aRun :
    chunkText aRun =
      [{ id := "chunk-0", content := List.replicate 2000 'a', index := 0,
         totalChunks := 2, originalLength := 2001 },
       { id := "chunk-1", content := ['a'], index := 1, totalChunks := 2,
         originalLength := 2001 }] := by
  have hsub : substring aRun 0 2000 = List.replicate 2000 'a' := by
    unfold substring aRun
    rw [List.drop_zero, List.take_replicate]
    norm_num
  have hloop : chunkLoop aRun 2000 aRun.length 0 0 =
      [{ id := "chunk-" ++ toString 0, content := List.replicate 2000 'a',
         index := 0, totalChunks := 0, originalLength := aRun.length },
       { id := "chunk-" ++ toString 1, content := ['a'], index := 1,
         totalChunks := 0, originalLength := aRun.length }] := by
    conv_lhs => rw [aRun_length]
    show chunkLoop aRun 2000 (2000 + 1) 0 0 = _
    rw [chunkLoop_succ aRun 2000 2000 0 0
        (by rw [aRun_length]; decide)
        (by rw [windowEnd_aRun_0]; decide),
      windowEnd_aRun_0,
      show max (2000 - OVERLAP_SIZE) 2000 = 2000 from by decide,
      chunkLoop_aRun_tail 2000 (by decide), hsub]
  show chunkText aRun 2000 = _
  simp only [chunkText]
  rw [if_neg (by rw [aRun_length]; decide), hloop, aRun_length]
  rfl

theorem reconstructText_aRun_chunks :
    reconstructText
      [{ id := "chunk-0", content := List.replicate 2000 'a', index := 0,
         totalChunks := 2, originalLength := 2001 },
       { id := "chunk-1", content := ['a'], index := 1, totalChunks := 2,
         originalLength := 2001 }] = List.replicate 2000 'a' := by
  have hov : findOverlap (List.replicate 2000 'a') ['a'] = 1 := by
    have hmaxov : min (min (OVERLAP_SIZE * 2)
        (List.replicate 2000 'a' : Str).length) (['a'] : Str).length = 1 := by
      rw [List.length_replicate]
      decide
    have hmatch : substringFrom (List.replicate 2000 'a')
        ((List.replicate 2000 'a' : Str).length - 1) =
        substring ['a'] 0 1 := by
      unfold substringFrom substring
      rw [List.length_replicate, List.drop_replicate]
      norm_num
    have hle := overlapLoop_le (List.replicate 2000 'a') ['a'] 1
    have hmax := overlapLoop_max (List.replicate 2000 'a') ['a'] 1
    simp only [findOverlap]
    rw [hmaxov]
    rcases Nat.lt_or_ge (overlapLoop (List.replicate 2000 'a') ['a'] 1) 1 with
      hlt | hge
    · exact absurd hmatch (hmax 1 hlt le_rfl)
    · omega
  rw [reconstructText_sorted _ _ (by decide)]
  show List.replicate 2000 'a' ++
      (substringFrom ['a'] (findOverlap (List.replicate 2000 'a') ['a']) ++
        ([] : Str)) = _
  rw [hov, show substringFrom ['a'] 1 = ([] : Str) from rfl, List.nil_append,
    List.append_nil]

end TextChunker

namespace SubtitleChunker

theorem subLoop_map_index (origLen m : Nat) :
    ∀ (lines : List Str) (cur : Str) (i : Nat),
      (subLoop origLen m lines cur i).map TextChunk.index =
        List.range' i (subLoop origLen m lines cur i).length := by
  intro lines
  induction lines with
  | nil =>
    intro cur i
    simp only [subLoop]
    split
    · rfl
    · rfl
  | cons line rest ih =>
    intro cur i
    simp only [subLoop]
    split
    · rw [List.map_cons, List.length_cons, List.range'_succ, ih]
    · exact ih _ _

theorem subLoop_originalLength (origLen m : Nat) :
    ∀ (lines : List Str) (cur : Str) (i : Nat) (c : TextChunk),
      c ∈ subLoop origLen m lines cur i → c.originalLength = origLen := by
  intro lines
  induction lines with
  | nil =>
    intro cur i c hc
    simp only [subLoop] at hc
    split at hc
    · rw [List.mem_singleton.mp hc]
    · cases hc
  | cons line rest ih =>
    intro cur i c hc
    simp only [subLoop] at hc
    split at hc
    · rcases List.mem_cons.mp hc with h | h
      · rw [h]
      · exact ih _ _ c h
    · exact ih _ _ c hc

theorem chunkSubtitles_map_index (subs : Str) (m : Nat) :
    (chunkSubtitles subs m).map TextChunk.index =
      List.range (chunkSubtitles subs m).length := by
  unfold chunkSubtitles
  simp only [List.map_map, List.length_map]
  have hcomp : (TextChunk.index ∘
      fun c => { c with totalChunks :=
        (subLoop subs.length m (splitLoop [] subs) [] 0).length }) =
      TextChunk.index := funext fun c => rfl
  rw [hcomp, List.range_eq_range']
  exact subLoop_map_index subs.length m _ [] 0

theorem chunkSubtitles_totalChunks (subs : Str) (m : Nat) :
    ∀ c ∈ chunkSubtitles subs m,
      c.totalChunks = (chunkSubtitles subs m).length := by
  intro c hc
  unfold chunkSubtitles at *
  rcases List.mem_map.mp hc with ⟨c0, _, hmap⟩
  rw [← hmap, List.length_map]

theorem chunkSubtitles_originalLength (subs : Str) (m : Nat) :
    ∀ c ∈ chunkSubtitles subs m, c.originalLength = subs.length := by
  intro c hc
  unfold chunkSubtitles at hc
  rcases List.mem_map.mp hc with ⟨c0, hc0, hmap⟩
  rw [← hmap]
  exact subLoop_originalLength subs.length m _ [] 0 c0 hc0

theorem trim_ne_nil {s : Str}
    (h : ∃ ch ∈ s, isWhitespaceChar ch = false) : trim s ≠ [] := by
  rcases h with ⟨ch, hmem, hws⟩
  intro hcontra
  unfold trim at hcontra
  rw [List.reverse_eq_nil_iff, List.dropWhile_eq_nil_iff] at hcontra
  have hall : ∀ x ∈ s.dropWhile isWhitespaceChar, isWhitespaceChar x = true :=
    fun x hx => hcontra x (List.mem_reverse.mpr hx)
  have hsplit := List.takeWhile_append_dropWhile (p := isWhitespaceChar) (l := s)
  rw [← hsplit] at hmem
  rcases List.mem_append.mp hmem with hx | hx
  · rw [List.mem_takeWhile_imp hx] at hws
    cases hws
  · rw [hall ch hx] at hws
    cases hws

theorem subLoop_content_ne (origLen m : Nat) :
    ∀ (lines : List Str) (cur : Str) (i : Nat),
      (∀ l ∈ lines, ∃ ch ∈ l, isWhitespaceChar ch = false) →
      (cur = [] ∨ ∃ ch ∈ cur, isWhitespaceChar ch = false) →
      ∀ c ∈ subLoop origLen m lines cur i, c.content ≠ [] := by
  intro lines
  induction lines with
  | nil =>
    intro cur i _ _ c hc
    simp only [subLoop] at hc
    split at hc
    next htrim =>
      rw [List.mem_singleton.mp hc]
      exact htrim
    next => cases hc
  | cons line rest ih =>
    intro cur i hlines hcur c hc
    simp only [subLoop] at hc
    split at hc
    next hflush =>
      rcases List.mem_cons.mp hc with h | h
      · rw [h]
        rcases hcur with hnil | hws
        · rw [hnil] at hflush
          simp at hflush
        · exact trim_ne_nil hws
      · exact ih line (i + 1)
          (fun l hl => hlines l (List.mem_cons_of_mem _ hl))
          (Or.inr (hlines line (List.mem_cons_self _ _))) c h
    next =>
      refine ih _ i (fun l hl => hlines l (List.mem_cons_of_mem _ hl))
        (Or.inr ?_) c hc
      rcases hlines line (List.mem_cons_self _ _) with ⟨ch, hmem, hws⟩
      exact ⟨ch, by simp [hmem], hws⟩

theorem chunkSubtitles_content_ne (subs : Str) (m : Nat)
    (hblocks : ∀ l ∈ splitLoop [] subs, ∃ ch ∈ l, isWhitespaceChar ch = false) :
    ∀ c ∈ chunkSubtitles subs m, c.content ≠ [] := by
  intro c hc
  unfold chunkSubtitles at hc
  rcases List.mem_map.mp hc with ⟨c0, hc0, hmap⟩
  rw [← hmap]
  exact subLoop_content_ne subs.length m _ [] 0 hblocks (Or.inl rfl) c0 hc0

end SubtitleChunker

namespace ChatHandler

theorem processChunksLoop_fail (backend : Nat → BackendCall) :
    ∀ (cl : List TextChunk) (k i : Nat) (e : String),
      k ≤ i → i - k < cl.length →
      backend i = .failure e →
      (∀ j, k ≤ j → j < i → ∃ s, backend j = .success s) →
      processChunksLoop backend cl k =
        (List.range' k (i - k + 1),
         .error ("Chunk " ++ toString (i + 1) ++ " failed with status " ++
           toString 500)) := by
  intro cl
  induction cl with
  | nil =>
    intro k i e hk hlt hfail hok
    simp at hlt
  | cons c rest ih =>
    intro k i e hk hlt hfail hok
    by_cases hik : i = k
    · subst hik
      simp only [processChunksLoop, hfail, handleNonStreamingChat,
        HandlerResponse.isOk, HandlerResponse.statusCode]
      rw [if_pos trivial, Nat.sub_self, List.range'_one]
    · have hki : k < i := by omega
      obtain ⟨s, hs⟩ := hok k le_rfl hki
      simp only [processChunksLoop, hs, handleNonStreamingChat,
        HandlerResponse.isOk]
      rw [if_neg (by simp)]
      rw [ih (k + 1) i e (by omega) (by simp at hlt; omega) hfail
        (fun j hj1 hj2 => hok j (by omega) hj2)]
      show (k :: List.range' (k + 1) (i - (k + 1) + 1),
          Except.error ("Chunk " ++ toString (i + 1) ++
            " failed with status " ++ toString 500)) =
        (List.range' k (i - k + 1),
         Except.error ("Chunk " ++ toString (i + 1) ++
           " failed with status " ++ toString 500))
      rw [show i - k + 1 = (i - (k + 1) + 1) + 1 from by omega,
        List.range'_succ, List.range'_succ, List.range'_succ]

theorem handleChunkedTranslation_shape (messages : List ChatMessage)
    (requestId : String) (backend : Nat → BackendCall) :
    (handleChunkedTranslation messages requestId backend).1.isEventStream =
      false ∧
    ∀ ob content fr,
      (handleChunkedTranslation messages requestId backend).1 =
        .jsonOk ob content fr → ob = "chat.completion" := by
  simp only [handleChunkedTranslation]
  rcases h : processChunksLoop backend (chunkPlan messages) 0 with ⟨calls, res⟩
  cases res with
  | error e =>
    refine ⟨rfl, ?_⟩
    intro ob content fr hcontra
    cases hcontra
  | ok translated =>
    refine ⟨rfl, ?_⟩
    intro ob content fr hcontra
    cases hcontra
    rfl

end ChatHandler

-- sanity checks (concrete evaluations of the embedding)
example : TextChunker.chunkText ['h', 'i'] 2000 =
    [{ id := "chunk-0", content := ['h', 'i'], index := 0, totalChunks := 1,
       originalLength := 2 }] := by decide

example :
    (TextChunker.chunkText exSmallText 3).map TextChunk.content =
    [['a', 'b', '.'], ['d', 'e', 'f'], ['g', 'h']] := by decide

example : TextChunker.findOverlap ['a', 'b', 'c'] ['b', 'c', 'd'] = 2 := by
  decide

/-! ## Claim theorems -/

/-- C4: for every input text and either strategy (`TextChunker.chunkText` or
`SubtitleChunker.chunkSubtitles`), the returned segments have index values
exactly `0 .. totalSegments - 1` in strictly increasing order, and every
segment carries the same `totalChunks` (equal to the number of segments
returned) and the same `originalLength` (equal to the input text's
length). -/
theorem claim4_segment_run_invariants (text : Str) (m : Nat) (subs : Str)
    (m2 : Nat) :
    ((TextChunker.chunkText text m).map TextChunk.index =
        List.range (TextChunker.chunkText text m).length ∧
      ∀ c ∈ TextChunker.chunkText text m,
        c.totalChunks = (TextChunker.chunkText text m).length ∧
        c.originalLength = text.length) ∧
    ((SubtitleChunker.chunkSubtitles subs m2).map TextChunk.index =
        List.range (SubtitleChunker.chunkSubtitles subs m2).length ∧
      ∀ c ∈ SubtitleChunker.chunkSubtitles subs m2,
        c.totalChunks = (SubtitleChunker.chunkSubtitles subs m2).length ∧
        c.originalLength = subs.length) := by
  refine ⟨⟨TextChunker.chunkText_map_index text m, fun c hc => ⟨?_, ?_⟩⟩,
    ⟨SubtitleChunker.chunkSubtitles_map_index subs m2, fun c hc => ⟨?_, ?_⟩⟩⟩
  · exact TextChunker.chunkText_totalChunks text m c hc
  · exact TextChunker.chunkText_originalLength text m c hc
  · exact SubtitleChunker.chunkSubtitles_totalChunks subs m2 c hc
  · exact SubtitleChunker.chunkSubtitles_originalLength subs m2 c hc

/-- C5: for every text whose length is at most the configured maximum segment
size, `TextChunker.chunkText` returns exactly one segment whose content equals
the input text, with `index = 0` and `totalChunks = 1`. -/
theorem claim5_small_input_identity (text : Str) (m : Nat)
    (h : text.length ≤ m) :
    TextChunker.chunkText text m =
      [{ id := "chunk-0", content := text, index := 0, totalChunks := 1,
         originalLength := text.length }] := by
  unfold TextChunker.chunkText
  rw [if_pos h]

/-- Witness for C5 at the two-character text `"hi"` with the default maximum
segment size. -/
theorem claim5_small_input_identity_witness :
    (['h', 'i'] : Str).length ≤ 2000 ∧
    TextChunker.chunkText ['h', 'i'] 2000 =
      [{ id := "chunk-0", content := ['h', 'i'], index := 0, totalChunks := 1,
         originalLength := (['h', 'i'] : Str).length }] :=
  ⟨by decide, claim5_small_input_identity ['h', 'i'] 2000 (by decide)⟩

/-- C10: since `OVERLAP_SIZE > 0`, the cursor update
`Math.max(endIndex - OVERLAP_SIZE, endIndex)` always equals `endIndex`, so the
plain-text chunker never applies overlap: the segments produced by
`TextChunker.chunkText` are adjacent pairwise-disjoint slices of the input and
the direct concatenation of their contents in index order equals the original
text exactly. -/
theorem claim10_no_overlap_exact_concat (text : Str) (m : Nat) (hm : 1 ≤ m) :
    (∀ e : Nat, max (e - TextChunker.OVERLAP_SIZE) e = e) ∧
    ((TextChunker.chunkText text m).map TextChunk.content).flatten = text :=
  ⟨fun e => Nat.max_eq_right (Nat.sub_le _ _),
   TextChunker.chunkText_flatten text m hm⟩

/-- Witness for C10 at the text `"ab.defgh"` with window size 3 (three
segments). -/
theorem claim10_no_overlap_exact_concat_witness :
    1 ≤ 3 ∧
    ((∀ e : Nat, max (e - TextChunker.OVERLAP_SIZE) e = e) ∧
      ((TextChunker.chunkText exSmallText 3).map TextChunk.content).flatten =
        exSmallText) :=
  ⟨by decide, claim10_no_overlap_exact_concat exSmallText 3 (by decide)⟩

set_option maxRecDepth 7000 in
/-- C9 counterexample: the claim asserts non-empty content for every input and
either strategy, but on the empty input `chunkText` returns one segment whose
content is empty, and on a subtitle input whose leading blank-line-separated
block is whitespace-only (`"   "` followed by a blank line and a 1498-character
block) `chunkSubtitles` flushes a first segment whose trimmed content is
empty. -/
theorem claim9_counterexample :
    (∃ c ∈ TextChunker.chunkText ([] : Str), c.content = []) ∧
    ∃ c ∈ SubtitleChunker.chunkSubtitles exWhitespaceBlockSubs,
      c.content = [] := by
  constructor
  · decide
  · decide

/-- C9 amended: every segment produced by `TextChunker.chunkText` on a
**non-empty** input has non-empty content, and every segment produced by
`SubtitleChunker.chunkSubtitles` has non-empty content provided every
blank-line-separated block of the input contains a non-whitespace character
(a whitespace-only block can be flushed as an empty trimmed segment, and the
empty text yields an empty segment for the plain strategy). -/
theorem claim9_content_nonempty_amended (text : Str) (m : Nat) (subs : Str)
    (m2 : Nat) (htext : text ≠ [])
    (hblocks : ∀ l ∈ SubtitleChunker.splitLoop [] subs,
      ∃ ch ∈ l, SubtitleChunker.isWhitespaceChar ch = false) :
    (∀ c ∈ TextChunker.chunkText text m, c.content ≠ []) ∧
    (∀ c ∈ SubtitleChunker.chunkSubtitles subs m2, c.content ≠ []) :=
  ⟨TextChunker.chunkText_content_ne text m htext,
   SubtitleChunker.chunkSubtitles_content_ne subs m2 hblocks⟩

/-- Witness for the amended C9 at the text `"hi"` and the subtitle input
`"ab\n\ncd"`. -/
theorem claim9_content_nonempty_amended_witness :
    (['h', 'i'] : Str) ≠ [] ∧
    (∀ l ∈ SubtitleChunker.splitLoop [] ['a', 'b', '\n', '\n', 'c', 'd'],
      ∃ ch ∈ l, SubtitleChunker.isWhitespaceChar ch = false) ∧
    ((∀ c ∈ TextChunker.chunkText ['h', 'i'] 2000, c.content ≠ []) ∧
     (∀ c ∈ SubtitleChunker.chunkSubtitles ['a', 'b', '\n', '\n', 'c', 'd'] 1500,
        c.content ≠ [])) :=
  ⟨by decide, by decide,
   claim9_content_nonempty_amended ['h', 'i'] 2000
     ['a', 'b', '\n', '\n', 'c', 'd'] 1500 (by decide) (by decide)⟩

/-- C1 counterexample: on 2001 copies of `'a'` (default maximum chunk size
2000), `chunkText` produces two adjacent chunks with no real overlap, but
`findOverlap` detects a coincidental one-character suffix/prefix match between
them, so `reconstructText (chunkText text)` drops a character and does not
equal the original text. -/
theorem claim1_counterexample :
    TextChunker.reconstructText (TextChunker.chunkText aRun) ≠ aRun := by
  rw [TextChunker.chunkText_aRun, TextChunker.reconstructText_aRun_chunks]
  intro h
  have hlen := congrArg List.length h
  rw [List.length_replicate, TextChunker.aRun_length] at hlen
  omega

/-- C1 amended: reassembling the plain-text segmentation keeps the length
within the overlap-search tolerance of the original — each of the
`totalChunks - 1` boundaries removes at most `OVERLAP_SIZE * 2 = 200`
characters, so the reassembled length lies between
`text.length - 200 * (totalChunks - 1)` and `text.length` — with exact
equality precisely when `findOverlap` detects no overlap at any adjacent
boundary (the segments carry no real overlap, so zero is the
correctly-detected value): whenever a coincidental suffix/prefix match is
detected at some boundary, the reassembled text is strictly shorter than the
original. -/
theorem claim1_roundtrip_amended (text : Str) (m : Nat) (hm : 1 ≤ m) :
    (text.length ≤
        (TextChunker.reconstructText (TextChunker.chunkText text m)).length +
          TextChunker.OVERLAP_SIZE * 2 *
            ((TextChunker.chunkText text m).length - 1) ∧
      (TextChunker.reconstructText (TextChunker.chunkText text m)).length ≤
        text.length) ∧
    (List.Chain' (fun a b => TextChunker.findOverlap a.content b.content = 0)
        (TextChunker.chunkText text m) →
      TextChunker.reconstructText (TextChunker.chunkText text m) = text) ∧
    (¬ List.Chain' (fun a b => TextChunker.findOverlap a.content b.content = 0)
        (TextChunker.chunkText text m) →
      (TextChunker.reconstructText (TextChunker.chunkText text m)).length <
        text.length) := by
  have hflat := TextChunker.chunkText_flatten text m hm
  have hlen : ((TextChunker.chunkText text m).map
      (fun c => c.content.length)).sum = text.length := by
    have h := congrArg List.length hflat
    rw [List.length_flatten, List.map_map] at h
    simpa [Function.comp] using h
  rcases hc : TextChunker.chunkText text m with _ | ⟨c0, rest⟩
  · rw [hc] at hflat
    simp only [List.map_nil, List.flatten_nil] at hflat
    refine ⟨⟨?_, ?_⟩, fun _ => ?_, fun hnc => ?_⟩
    · rw [← hflat]
      exact Nat.zero_le _
    · rw [← hflat]
      exact le_rfl
    · exact hflat
    · exact absurd List.chain'_nil hnc
  · rcases rest with _ | ⟨c1, rest2⟩
    · rw [hc] at hflat
      simp only [List.map_cons, List.map_nil, List.flatten_cons,
        List.flatten_nil, List.append_nil] at hflat
      have hrec : TextChunker.reconstructText [c0] = c0.content := rfl
      refine ⟨⟨?_, ?_⟩, fun _ => ?_, fun hnc => ?_⟩
      · rw [hrec, hflat]
        exact Nat.le_add_right _ _
      · rw [hrec, hflat]
      · exact hflat
      · exact absurd (List.chain'_singleton c0) hnc
    · have hsorted := TextChunker.chunkText_sorted text m
      rw [hc] at hsorted hflat hlen
      have hrec := TextChunker.reconstructText_sorted c0 (c1 :: rest2) hsorted
      have hlen2 : c0.content.length +
          ((c1 :: rest2).map (fun c => c.content.length)).sum =
            text.length := by
        simpa using hlen
      refine ⟨⟨?_, ?_⟩, fun hov => ?_, fun hnc => ?_⟩
      · rw [hrec]
        have hge := TextChunker.reconstructLoop_length_ge c0 (c1 :: rest2)
        simp only [List.length_append, List.length_cons] at hge ⊢
        rw [show TextChunker.OVERLAP_SIZE * 2 = 200 from rfl] at hge ⊢
        omega
      · rw [hrec]
        have hle := TextChunker.reconstructLoop_length_le c0 (c1 :: rest2)
        simp only [List.length_append]
        omega
      · rw [hrec, TextChunker.reconstructLoop_zero_overlap c0 (c1 :: rest2) hov]
        simp only [List.map_cons, List.flatten_cons] at hflat
        exact hflat
      · rw [hrec]
        have hlt := TextChunker.reconstructLoop_length_lt c0 (c1 :: rest2) hnc
        simp only [List.length_append]
        omega

/-- Witness for the amended C1 at `"ab.defgh"` with window size 3: the three
segments `"ab."`, `"def"`, `"gh"` satisfy the length bounds, have no detected
overlap at either boundary, and reassembly restores the text exactly. -/
theorem claim1_roundtrip_amended_witness :
    1 ≤ 3 ∧
    ((exSmallText.length ≤
        (TextChunker.reconstructText (TextChunker.chunkText exSmallText 3)).length +
          TextChunker.OVERLAP_SIZE * 2 *
            ((TextChunker.chunkText exSmallText 3).length - 1) ∧
      (TextChunker.reconstructText (TextChunker.chunkText exSmallText 3)).length ≤
        exSmallText.length) ∧
    (List.Chain' (fun a b => TextChunker.findOverlap a.content b.content = 0)
        (TextChunker.chunkText exSmallText 3) →
      TextChunker.reconstructText (TextChunker.chunkText exSmallText 3) =
        exSmallText) ∧
    (¬ List.Chain' (fun a b => TextChunker.findOverlap a.content b.content = 0)
        (TextChunker.chunkText exSmallText 3) →
      (TextChunker.reconstructText (TextChunker.chunkText exSmallText 3)).length <
        exSmallText.length)) :=
  ⟨by decide, claim1_roundtrip_amended exSmallText 3 (by decide)⟩

/-- C6 counterexample: in `"abcdef.ghijklmnop"` with window size 10 the only
candidate break sits at position 7 — exactly at
`startIndex + 0.7 * maxChunkSize` (the IEEE double product `10 * 0.7` is
exactly `7`, so the rational comparison used here is faithful) — yet the
window is cut hard at the nominal boundary 10 (the source compares with
strict `>`), so the first chunk is the ten-character hard cut, not the
seven-character sentence cut. -/
theorem claim6_counterexample :
    TextChunker.findSentenceBreak exBreakText 0
        (min (0 + 10) exBreakText.length) = 7 ∧
    10 * 7 = 10 * 0 + 7 * 10 ∧
    TextChunker.windowEnd exBreakText 0 10 = 10 ∧
    (TextChunker.chunkText exBreakText 10).head?.map TextChunk.content =
      some ['a', 'b', 'c', 'd', 'e', 'f', '.', 'g', 'h', 'i'] := by decide

/-- C6 amended: the source accepts a candidate break when it lies strictly
beyond the floating-point threshold `startIndex + maxChunkSize * 0.7`, so the
behaviour exactly at the 70% mark follows the IEEE rounding of the product.
At window size 10 the double product `10 * 0.7` is exactly `7`, the rational
comparison is exact, and a break lying exactly at the 70% mark is rejected in
favour of the hard cut at the nominal boundary (first conjunct; the
counterexample instantiates it).  At every window size of at least 331 — in
particular the default 2000, the only size the repository ever chunks with —
any position the lookahead search can return lies within 99 characters of the
nominal boundary, so the strict comparison succeeds under both the float and
the rational reading: the sentence break is always accepted and the hard-cut
fallback never fires (second conjunct). -/
theorem claim6_break_threshold_amended (text1 text2 : Str)
    (start1 start2 m : Nat)
    (h10 : min (start1 + 10) text1.length < text1.length)
    (hm : 331 ≤ m)
    (hlt : min (start2 + m) text2.length < text2.length) :
    TextChunker.windowEnd text1 start1 10 =
      (if 10 * start1 + 7 * 10 <
          10 * TextChunker.findSentenceBreak text1 start1
            (min (start1 + 10) text1.length) then
        TextChunker.findSentenceBreak text1 start1
          (min (start1 + 10) text1.length)
      else min (start1 + 10) text1.length) ∧
    TextChunker.windowEnd text2 start2 m =
      TextChunker.findSentenceBreak text2 start2
        (min (start2 + m) text2.length) := by
  constructor
  · exact TextChunker.windowEnd_eq_of_lt text1 start1 10 h10
  · have hmin : min (start2 + m) text2.length = start2 + m := by
      rcases Nat.le_total (start2 + m) text2.length with h | h
      · exact Nat.min_eq_left h
      · rw [Nat.min_eq_right h] at hlt
        omega
    have hge := TextChunker.findSentenceBreak_ge text2 start2
      (min (start2 + m) text2.length)
    rw [TextChunker.windowEnd_eq_of_lt text2 start2 m hlt, hmin,
      if_pos (by rw [hmin] at hge; omega)]

/-- Witness for the amended C6: part one at `"abcdef.ghijklmnop"` with window
size 10 (the break at 7 sits exactly at 70% and the hard cut at 10 is taken),
part two at the run of 2001 `'a'`s with the default window size 2000 (the
lookahead result is always accepted). -/
theorem claim6_break_threshold_amended_witness :
    min (0 + 10) exBreakText.length < exBreakText.length ∧
    331 ≤ 2000 ∧
    min (0 + 2000) aRun.length < aRun.length ∧
    ((TextChunker.windowEnd exBreakText 0 10 =
      (if 10 * 0 + 7 * 10 <
          10 * TextChunker.findSentenceBreak exBreakText 0
            (min (0 + 10) exBreakText.length) then
        TextChunker.findSentenceBreak exBreakText 0
          (min (0 + 10) exBreakText.length)
      else min (0 + 10) exBreakText.length)) ∧
     TextChunker.windowEnd aRun 0 2000 =
       TextChunker.findSentenceBreak aRun 0 (min (0 + 2000) aRun.length)) :=
  ⟨by decide, by decide, by rw [TextChunker.aRun_length]; decide,
   claim6_break_threshold_amended exBreakText aRun 0 0 2000 (by decide)
     (by decide) (by rw [TextChunker.aRun_length]; decide)⟩

/-- C7 counterexample: on the run `exChunks` (contents `"XY"`, `"ab"`,
`"Yab"`), `reconstructText` — which searches for overlap against the
**previous segment's content** — returns `"XYabYab"`, while the overlap rule
described by the claim (against the **already-assembled result**) would return
`"XYab"`; the claim's description of the code is therefore wrong. -/
theorem claim7_counterexample :
    TextChunker.reconstructText exChunks =
      ['X', 'Y', 'a', 'b', 'Y', 'a', 'b'] ∧
    TextChunker.reconstructTextClaimed exChunks = ['X', 'Y', 'a', 'b'] ∧
    TextChunker.reconstructText exChunks ≠
      TextChunker.reconstructTextClaimed exChunks := by decide

/-- C7 amended: zero segments yield the empty text and a single segment is
returned verbatim; when merging more, each step computes the longest suffix of
the **previous segment's content** (not of the already-assembled result) that
equals a prefix of the next segment's content — `findOverlap` returns a true
suffix/prefix match length, bounded by twice the overlap size and by both
operand lengths, and maximal among lengths within that bound — and appends
only the remainder of the next segment past that overlap (`reconstructLoop`);
on an index-sorted run the defensive sort is the identity and the fold starts
from the first segment's content. -/
theorem claim7_reassembler_rule_amended (t1 t2 : Str) (c c0 : TextChunk)
    (rest : List TextChunk)
    (hsorted : List.Sorted (fun a b : TextChunk => a.index ≤ b.index)
      (c0 :: rest)) :
    TextChunker.reconstructText [] = [] ∧
    TextChunker.reconstructText [c] = c.content ∧
    (TextChunker.findOverlap t1 t2 = 0 ∨
      substringFrom t1 (t1.length - TextChunker.findOverlap t1 t2) =
        substring t2 0 (TextChunker.findOverlap t1 t2)) ∧
    TextChunker.findOverlap t1 t2 ≤
      min (min (TextChunker.OVERLAP_SIZE * 2) t1.length) t2.length ∧
    (∀ j, TextChunker.findOverlap t1 t2 < j →
      j ≤ min (min (TextChunker.OVERLAP_SIZE * 2) t1.length) t2.length →
      substringFrom t1 (t1.length - j) ≠ substring t2 0 j) ∧
    TextChunker.reconstructText (c0 :: rest) =
      c0.content ++ TextChunker.reconstructLoop c0 rest := by
  refine ⟨rfl, rfl, ?_, ?_, ?_, ?_⟩
  · exact TextChunker.overlapLoop_match t1 t2 _
  · exact TextChunker.overlapLoop_le t1 t2 _
  · exact fun j h1 h2 => TextChunker.overlapLoop_max t1 t2 _ j h1 h2
  · exact TextChunker.reconstructText_sorted c0 rest hsorted

/-- Witness for the amended C7 at the sorted run `exChunks` and the operand
pair `("abc", "bcd")`. -/
theorem claim7_reassembler_rule_amended_witness :
    List.Sorted (fun a b : TextChunk => a.index ≤ b.index)
      ({ id := "chunk-0", content := ['X', 'Y'], index := 0, totalChunks := 3,
         originalLength := 7 } ::
        [{ id := "chunk-1", content := ['a', 'b'], index := 1, totalChunks := 3,
           originalLength := 7 },
         { id := "chunk-2", content := ['Y', 'a', 'b'], index := 2,
           totalChunks := 3, originalLength := 7 }]) ∧
    (TextChunker.reconstructText [] = [] ∧
     TextChunker.reconstructText
        [{ id := "chunk-0", content := ['X', 'Y'], index := 0,
           totalChunks := 3, originalLength := 7 }] =
        ({ id := "chunk-0", content := ['X', 'Y'], index := 0, totalChunks := 3,
           originalLength := 7 } : TextChunk).content ∧
     (TextChunker.findOverlap ['a', 'b', 'c'] ['b', 'c', 'd'] = 0 ∨
      substringFrom ['a', 'b', 'c']
          ((['a', 'b', 'c'] : Str).length -
            TextChunker.findOverlap ['a', 'b', 'c'] ['b', 'c', 'd']) =
        substring ['b', 'c', 'd'] 0
          (TextChunker.findOverlap ['a', 'b', 'c'] ['b', 'c', 'd'])) ∧
     TextChunker.findOverlap ['a', 'b', 'c'] ['b', 'c', 'd'] ≤
       min (min (TextChunker.OVERLAP_SIZE * 2) (['a', 'b', 'c'] : Str).length)
         (['b', 'c', 'd'] : Str).length ∧
     (∀ j, TextChunker.findOverlap ['a', 'b', 'c'] ['b', 'c', 'd'] < j →
       j ≤ min (min (TextChunker.OVERLAP_SIZE * 2)
             (['a', 'b', 'c'] : Str).length) (['b', 'c', 'd'] : Str).length →
       substringFrom ['a', 'b', 'c'] ((['a', 'b', 'c'] : Str).length - j) ≠
         substring ['b', 'c', 'd'] 0 j) ∧
     TextChunker.reconstructText
        ({ id := "chunk-0", content := ['X', 'Y'], index := 0, totalChunks := 3,
           originalLength := 7 } ::
          [{ id := "chunk-1", content := ['a', 'b'], index := 1,
             totalChunks := 3, originalLength := 7 },
           { id := "chunk-2", content := ['Y', 'a', 'b'], index := 2,
             totalChunks := 3, originalLength := 7 }]) =
       ({ id := "chunk-0", content := ['X', 'Y'], index := 0, totalChunks := 3,
          originalLength := 7 } : TextChunk).content ++
         TextChunker.reconstructLoop
           { id := "chunk-0", content := ['X', 'Y'], index := 0,
             totalChunks := 3, originalLength := 7 }
           [{ id := "chunk-1", content := ['a', 'b'], index := 1,
              totalChunks := 3, originalLength := 7 },
            { id := "chunk-2", content := ['Y', 'a', 'b'], index := 2,
              totalChunks := 3, originalLength := 7 }]) :=
  ⟨by decide,
   claim7_reassembler_rule_amended ['a', 'b', 'c'] ['b', 'c', 'd']
     { id := "chunk-0", content := ['X', 'Y'], index := 0, totalChunks := 3,
       originalLength := 7 }
     { id := "chunk-0", content := ['X', 'Y'], index := 0, totalChunks := 3,
       originalLength := 7 }
     [{ id := "chunk-1", content := ['a', 'b'], index := 1, totalChunks := 3,
        originalLength := 7 },
      { id := "chunk-2", content := ['Y', 'a', 'b'], index := 2,
        totalChunks := 3, originalLength := 7 }]
     (by decide)⟩

/-- C2: if the `i`-th single-segment backend call fails (and every earlier one
succeeded), `handleChunkedTranslation` aborts immediately: the calls issued
are exactly `0 .. i` (no segment after `i` is sent), the caller gets the
chunked-translation error response instead of any partial translation, and a
`failed` lifecycle event is recorded for the request id carrying the
originating error message. -/
theorem claim2_chunked_all_or_nothing (messages : List ChatMessage)
    (requestId : String) (backend : Nat → BackendCall) (i : Nat) (e : String)
    (hlt : i < (ChatHandler.chunkPlan messages).length)
    (hfail : backend i = .failure e)
    (hok : ∀ j < i, ∃ s, backend j = .success s) :
    ChatHandler.handleChunkedTranslation messages requestId backend =
      (.jsonError "Failed to process chunked translation" 500,
       [.failed requestId ("Chunk " ++ toString (i + 1) ++
          " failed with status " ++ toString 500)],
       List.range (i + 1)) := by
  simp only [ChatHandler.handleChunkedTranslation]
  rw [ChatHandler.processChunksLoop_fail backend (ChatHandler.chunkPlan messages)
    0 i e (Nat.zero_le i) (by omega) hfail (fun j _ hj2 => hok j hj2)]
  rw [show i - 0 + 1 = i + 1 from by omega, List.range_eq_range']

/-- Witness for C2: one short message, a backend that fails on the very first
segment call. -/
theorem claim2_chunked_all_or_nothing_witness :
    0 < (ChatHandler.chunkPlan exShortMessages).length ∧
    (fun _ : Nat => BackendCall.failure "boom") 0 = .failure "boom" ∧
    ChatHandler.handleChunkedTranslation exShortMessages "req-1"
        (fun _ => BackendCall.failure "boom") =
      (.jsonError "Failed to process chunked translation" 500,
       [.failed "req-1" ("Chunk " ++ toString (0 + 1) ++
          " failed with status " ++ toString 500)],
       List.range (0 + 1)) :=
  ⟨by decide, rfl,
   claim2_chunked_all_or_nothing exShortMessages "req-1"
     (fun _ => BackendCall.failure "boom") 0 "boom" (by decide) rfl
     (fun j hj => absurd hj (by omega))⟩

/-- C3: under valid messages and a supported model, a request whose total
string-content length exceeds 2000 takes the chunked path — whose response is
always a single non-streamed `chat.completion` JSON, never an event stream,
even when the stream flag is set — while a request at or below 2000 characters
takes the single-call path, streamed or not per the flag. -/
theorem claim3_chunk_trigger_and_streaming_downgrade (models : List String)
    (defaultModel : String) (req : ChatCompletionRequest)
    (messages : List ChatMessage) (requestId : String)
    (backend : Nat → BackendCall) (single : BackendCall) (pieces : List Str)
    (hmsgs : req.messages = some messages)
    (hmodel : req.model.getD defaultModel ∈ models) :
    (2000 < ChatHandler.totalTextLength messages →
      (ChatHandler.handleChatCompletionsWithBody models defaultModel req
          requestId backend single pieces).1 =
        (ChatHandler.handleChunkedTranslation messages requestId backend).1 ∧
      (ChatHandler.handleChatCompletionsWithBody models defaultModel req
          requestId backend single pieces).1.isEventStream = false ∧
      ∀ ob content fr,
        (ChatHandler.handleChatCompletionsWithBody models defaultModel req
            requestId backend single pieces).1 =
          .jsonOk ob content fr → ob = "chat.completion") ∧
    (ChatHandler.totalTextLength messages ≤ 2000 →
      (ChatHandler.handleChatCompletionsWithBody models defaultModel req
          requestId backend single pieces).1 =
        if req.stream then .eventStream (ChatHandler.streamPump pieces)
        else (ChatHandler.handleNonStreamingChat single (some requestId)).1) := by
  have hbody : ∀ hgt : 2000 < ChatHandler.totalTextLength messages,
      (ChatHandler.handleChatCompletionsWithBody models defaultModel req
        requestId backend single pieces).1 =
      (ChatHandler.handleChunkedTranslation messages requestId backend).1 := by
    intro hgt
    simp only [ChatHandler.handleChatCompletionsWithBody, hmsgs]
    rw [if_pos hmodel, if_pos hgt]
  constructor
  · intro hgt
    have hshape := ChatHandler.handleChunkedTranslation_shape messages
      requestId backend
    refine ⟨hbody hgt, ?_, ?_⟩
    · rw [hbody hgt]
      exact hshape.1
    · intro ob content fr h
      rw [hbody hgt] at h
      exact hshape.2 ob content fr h
  · intro hle
    simp only [ChatHandler.handleChatCompletionsWithBody, hmsgs]
    rw [if_pos hmodel, if_neg (by omega)]
    by_cases hstream : req.stream
    · rw [if_pos hstream, if_pos hstream]
      rfl
    · rw [if_neg hstream, if_neg hstream]

/-- Witness for C3 at a 2001-character request with the stream flag set and a
short request without it. -/
theorem claim3_chunk_trigger_and_streaming_downgrade_witness :
    exLongRequest.messages = some exLongMessages ∧
    exLongRequest.model.getD "m" ∈ ["m"] ∧
    ((2000 < ChatHandler.totalTextLength exLongMessages →
      (ChatHandler.handleChatCompletionsWithBody ["m"] "m" exLongRequest
          "req-2" (fun _ => .success ['x']) (.success ['y']) []).1 =
        (ChatHandler.handleChunkedTranslation exLongMessages "req-2"
          (fun _ => .success ['x'])).1 ∧
      (ChatHandler.handleChatCompletionsWithBody ["m"] "m" exLongRequest
          "req-2" (fun _ => .success ['x']) (.success ['y'])
          []).1.isEventStream = false ∧
      ∀ ob content fr,
        (ChatHandler.handleChatCompletionsWithBody ["m"] "m" exLongRequest
            "req-2" (fun _ => .success ['x']) (.success ['y']) []).1 =
          .jsonOk ob content fr → ob = "chat.completion") ∧
    (ChatHandler.totalTextLength exLongMessages ≤ 2000 →
      (ChatHandler.handleChatCompletionsWithBody ["m"] "m" exLongRequest
          "req-2" (fun _ => .success ['x']) (.success ['y']) []).1 =
        if exLongRequest.stream then
          .eventStream (ChatHandler.streamPump [])
        else (ChatHandler.handleNonStreamingChat (.success ['y'])
          (some "req-2")).1)) ∧
    2000 < ChatHandler.totalTextLength exLongMessages :=
  ⟨rfl, by decide,
   claim3_chunk_trigger_and_streaming_downgrade ["m"] "m" exLongRequest
     exLongMessages "req-2" (fun _ => .success ['x']) (.success ['y']) []
     rfl (by decide),
   by
    simp only [ChatHandler.totalTextLength, exLongMessages, List.map_cons,
      List.map_nil, List.sum_cons, List.sum_nil, List.length_replicate]
    omega⟩

/-- C8: for a source stream that delivers pieces `p1 .. pn` and then ends, the
transcoder writes exactly `n` delta frames in order (one
`chat.completion.chunk` per read, `delta.content` the decoded piece,
`finish_reason` null), then one terminal frame with empty delta and
`finish_reason = "stop"`, then the `data: [DONE]` sentinel, then closes the
sink; in particular a single-piece `"Hola"` stream yields exactly two frames
plus the sentinel. -/
theorem claim8_stream_frame_sequence (pieces : List Str) :
    ChatHandler.streamPump pieces =
      pieces.map (fun p => SSEWrite.frame
        { object := "chat.completion.chunk", deltaContent := some p,
          finishReason := none }) ++
      [SSEWrite.frame
         { object := "chat.completion.chunk", deltaContent := none,
           finishReason := some "stop" },
       SSEWrite.doneSentinel, SSEWrite.closeSink] ∧
    ChatHandler.streamPump [['H', 'o', 'l', 'a']] =
      [SSEWrite.frame
         { object := "chat.completion.chunk",
           deltaContent := some ['H', 'o', 'l', 'a'], finishReason := none },
       SSEWrite.frame
         { object := "chat.completion.chunk", deltaContent := none,
           finishReason := some "stop" },
       SSEWrite.doneSentinel, SSEWrite.closeSink] := by
  constructor
  · induction pieces with
    | nil => rfl
    | cons p rest ih =>
      simp only [ChatHandler.streamPump, ih, List.map_cons, List.cons_append]
  · rfl

end RelayWorker
